import Mathlib

/-!
Verification development for the nats-client-py repository.

The development shallowly embeds the core of the package
(`src/nats_client/utils.py`, `broker.py`, `service.py`, `schema.py`):

* `JsonValue` models the Python values that travel through `json.dumps` /
  `json.loads` (the repository's `encode_json` / `decode_json` delegate to the
  standard `json` module). Numbers are modelled as integers; floating point
  payloads are outside the model. Python `None` and JSON `null` are one and
  the same value, modelled by `JsonValue.null`, exactly as in Python.
  Byte-level UTF-8 encoding (`str.encode` / `bytes.decode`) is treated as the
  identity on strings.
* `encode_json` models `json.dumps(payload)` with its default settings
  (separators `", "` and `": "`, `ensure_ascii=True` with `\uXXXX` escapes and
  surrogate pairs for astral code points).
* `decode_json` models `json.loads` on the integer fragment of JSON, written
  as a fuel-indexed recursive-descent parser.
* The broker, dispatch adapter, service registrar and call context are
  modelled as explicit state-passing functions; Python exceptions become
  `Except` values carrying `str(exception)`, and transport side effects are
  reified as returned records.
-/

namespace NatsClient

/-- JSON-representable Python values: `None`/`null`, booleans, integers,
strings, lists, and string-keyed dicts (as ordered association lists, which is
how both `json.dumps` and `json.loads` traverse them). -/
inductive JsonValue where
  | null : JsonValue
  | bool : Bool → JsonValue
  | num : Int → JsonValue
  | str : String → JsonValue
  | arr : List JsonValue → JsonValue
  | obj : List (String × JsonValue) → JsonValue

/-! ## Decimal printing (Python `repr` of `int`, also used by f-strings) -/

/-- Character for a single decimal digit. -/
def digitChar (d : Nat) : Char := Char.ofNat (48 + d)

/-- Little-endian decimal digits of a positive number, with explicit fuel
(the structural recursion makes the definition kernel-reducible). -/
def natDigitsLE : Nat → Nat → List Nat
  | 0, _ => []
  | _ + 1, 0 => []
  | fuel + 1, n + 1 => ((n + 1) % 10) :: natDigitsLE fuel ((n + 1) / 10)

/-- Decimal digit characters of a natural number, most significant first. -/
def natChars (n : Nat) : List Char :=
  if n = 0 then ['0'] else ((natDigitsLE n n).map digitChar).reverse

/-- Decimal representation of an integer, as Python prints it. -/
def intChars : Int → List Char
  | .ofNat n => natChars n
  | .negSucc m => '-' :: natChars (m + 1)

/-- Decimal string of a natural number, as a Python f-string renders it. -/
def natRepr (n : Nat) : String := String.mk (natChars n)

/-! ## JSON encoder: model of `json.dumps` with default settings -/

/-- Lowercase hexadecimal digit character (as CPython's encoder emits). -/
def hexDigitChar (n : Nat) : Char :=
  if n < 10 then Char.ofNat (48 + n) else Char.ofNat (87 + n)

/-- Four lowercase hex digits of a code unit below `0x10000`. -/
def hex4 (n : Nat) : List Char :=
  [hexDigitChar (n / 4096 % 16), hexDigitChar (n / 256 % 16),
   hexDigitChar (n / 16 % 16), hexDigitChar (n % 16)]

/-- Escape one character the way `json.dumps` (with `ensure_ascii=True`) does:
quote and backslash get two-character escapes, the five control characters with
short escapes use them, other chars below `0x20` and all chars above `0x7E`
become `\uXXXX` (with a surrogate pair beyond `0xFFFF`), and the printable
ASCII range is emitted literally. -/
def escapeChar (c : Char) : List Char :=
  if c.toNat = 34 then ['\\', '"']
  else if c.toNat = 92 then ['\\', '\\']
  else if c.toNat = 8 then ['\\', 'b']
  else if c.toNat = 9 then ['\\', 't']
  else if c.toNat = 10 then ['\\', 'n']
  else if c.toNat = 12 then ['\\', 'f']
  else if c.toNat = 13 then ['\\', 'r']
  else if c.toNat < 32 then '\\' :: 'u' :: hex4 c.toNat
  else if c.toNat < 127 then [c]
  else if c.toNat < 65536 then '\\' :: 'u' :: hex4 c.toNat
  else
    ('\\' :: 'u' :: hex4 (55296 + (c.toNat - 65536) / 1024))
      ++ ('\\' :: 'u' :: hex4 (56320 + (c.toNat - 65536) % 1024))

/-- Escape every character of a string body. -/
def escChars : List Char → List Char
  | [] => []
  | c :: cs => escapeChar c ++ escChars cs

mutual

/-- Model of `json.dumps` at the character-list level, with Python's default
separators `", "` and `": "`. -/
def encodeVal : JsonValue → List Char
  | .null => ['n', 'u', 'l', 'l']
  | .bool b => if b then ['t', 'r', 'u', 'e'] else ['f', 'a', 'l', 's', 'e']
  | .num i => intChars i
  | .str s => '"' :: (escChars s.data ++ ['"'])
  | .arr [] => ['[', ']']
  | .arr (v :: tl) => '[' :: ((encodeVal v ++ encodeElemsRest tl) ++ [']'])
  | .obj [] => ['{', '}']
  | .obj (kv :: tl) => '{' :: ((encodeMember kv ++ encodeMembersRest tl) ++ ['}'])

/-- One `"key": value` member of a JSON object. -/
def encodeMember : String × JsonValue → List Char
  | (k, v) => '"' :: (escChars k.data ++ ('"' :: ':' :: ' ' :: encodeVal v))

/-- Remaining array elements, each preceded by the `", "` separator. -/
def encodeElemsRest : List JsonValue → List Char
  | [] => []
  | v :: tl => ',' :: ' ' :: (encodeVal v ++ encodeElemsRest tl)

/-- Remaining object members, each preceded by the `", "` separator. -/
def encodeMembersRest : List (String × JsonValue) → List Char
  | [] => []
  | kv :: tl => ',' :: ' ' :: (encodeMember kv ++ encodeMembersRest tl)

end

/-- Model of `utils.encode_json`: `json.dumps(payload).encode()`, with the
byte level identified with the string level. -/
def encode_json (payload : JsonValue) : String := String.mk (encodeVal payload)

/-! ## JSON parser: model of `json.loads` on the integer fragment -/

/-- JSON insignificant whitespace. -/
def isWsChar (c : Char) : Bool :=
  c.toNat = 32 || c.toNat = 9 || c.toNat = 10 || c.toNat = 13

/-- Drop leading JSON whitespace. -/
def skipWs : List Char → List Char
  | [] => []
  | c :: cs => if isWsChar c then skipWs cs else c :: cs

/-- ASCII decimal digit test. -/
def isDigitChar (c : Char) : Bool := 48 ≤ c.toNat && c.toNat ≤ 57

/-- Longest prefix of decimal digits, as digit values, with the remainder. -/
def takeDigits : List Char → List Nat × List Char
  | [] => ([], [])
  | c :: cs =>
    if isDigitChar c then
      let p := takeDigits cs
      ((c.toNat - 48) :: p.1, p.2)
    else ([], c :: cs)

/-- Value of a most-significant-first digit list. -/
def digitsToNat (ds : List Nat) : Nat := ds.foldl (fun a d => 10 * a + d) 0

/-- Parse a JSON natural number literal. JSON forbids leading zeros; a
following `.`, `e` or `E` would start a float literal, which is outside the
integer fragment modelled here, so the parse is rejected. -/
def parseNatNum (cs : List Char) : Option (Nat × List Char) :=
  let p := takeDigits cs
  match p.1 with
  | [] => none
  | d :: tl =>
    if d = 0 ∧ tl ≠ [] then none
    else
      match p.2 with
      | [] => some (digitsToNat p.1, p.2)
      | c :: _ =>
        if c.toNat = 46 ∨ c.toNat = 101 ∨ c.toNat = 69 then none
        else some (digitsToNat p.1, p.2)

/-- Value of one hexadecimal digit character (either case). -/
def hexVal (c : Char) : Option Nat :=
  let n := c.toNat
  if 48 ≤ n ∧ n ≤ 57 then some (n - 48)
  else if 97 ≤ n ∧ n ≤ 102 then some (n - 87)
  else if 65 ≤ n ∧ n ≤ 70 then some (n - 55)
  else none

/-- Read exactly four hex digits. -/
def readHex4 : List Char → Option (Nat × List Char)
  | a :: b :: c :: d :: rest => do
    let x ← hexVal a
    let y ← hexVal b
    let z ← hexVal c
    let w ← hexVal d
    some (4096 * x + 256 * y + 16 * z + w, rest)
  | _ => none

/-- Single-character JSON escapes, keyed by character code. -/
def unescapeSimple (c : Char) : Option Char :=
  if c.toNat = 34 then some '"'
  else if c.toNat = 92 then some '\\'
  else if c.toNat = 47 then some '/'
  else if c.toNat = 98 then some (Char.ofNat 8)
  else if c.toNat = 102 then some (Char.ofNat 12)
  else if c.toNat = 110 then some (Char.ofNat 10)
  else if c.toNat = 114 then some (Char.ofNat 13)
  else if c.toNat = 116 then some (Char.ofNat 9)
  else none

/-- Decode the hex digits of a `\uXXXX` escape (the backslash and `u` already
consumed): a high surrogate must be followed by a `\uXXXX` low surrogate and
the pair combines into one astral code point; a lone surrogate is rejected
(Python would keep it as a surrogate `str` item, which a `Char`-based string
cannot represent). Returns the code point and the remaining input. -/
def decodeUEsc (cs : List Char) : Option (Nat × List Char) :=
  match readHex4 cs with
  | none => none
  | some p =>
    if 55296 ≤ p.1 ∧ p.1 ≤ 56319 then
      match p.2 with
      | c1 :: c2 :: rest2 =>
        if c1.toNat = 92 ∧ c2.toNat = 117 then
          match readHex4 rest2 with
          | none => none
          | some q =>
            if 56320 ≤ q.1 ∧ q.1 ≤ 57343 then
              some (65536 + 1024 * (p.1 - 55296) + (q.1 - 56320), q.2)
            else none
        else none
      | _ => none
    else if 56320 ≤ p.1 ∧ p.1 ≤ 57343 then none
    else some p

/-- Parse the body of a JSON string after the opening quote, up to and
including the closing quote. Surrogate pairs in `\uXXXX` escapes are
recombined into one code point, as `json.loads` does. Fuel bounds the number
of source characters; one unit is spent per decoded character. -/
def parseStringRest : Nat → List Char → Option (List Char × List Char)
  | 0, _ => none
  | _ + 1, [] => none
  | fuel + 1, c :: cs =>
    if c.toNat = 34 then some ([], cs)
    else if c.toNat = 92 then
      match cs with
      | [] => none
      | e :: cs' =>
        if e.toNat = 117 then
          match decodeUEsc cs' with
          | none => none
          | some p =>
            match parseStringRest fuel p.2 with
            | none => none
            | some r => some (Char.ofNat p.1 :: r.1, r.2)
        else
          match unescapeSimple e with
          | none => none
          | some u =>
            match parseStringRest fuel cs' with
            | none => none
            | some r => some (u :: r.1, r.2)
    else
      match parseStringRest fuel cs with
      | none => none
      | some r => some (c :: r.1, r.2)

/-- Expect a fixed run of characters (the tails of `null`, `true`, `false`). -/
def expectChars : List Char → List Char → Option (List Char)
  | [], cs => some cs
  | _ :: _, [] => none
  | e :: es, c :: cs => if c = e then expectChars es cs else none

mutual

/-- Recursive-descent model of `json.loads` on one value, dispatching on the
code of the head character (110 `n`, 116 `t`, 102 `f`, 34 `"`, 45 `-`, 91
`[`, 123 `x7b`); fuel bounds the nesting depth explored and is decremented on
every mutual call. -/
def parseVal : Nat → List Char → Option (JsonValue × List Char)
  | 0, _ => none
  | _ + 1, [] => none
  | fuel + 1, c :: cs =>
    if c.toNat = 110 then (expectChars ['u', 'l', 'l'] cs).map (fun r => (.null, r))
    else if c.toNat = 116 then
      (expectChars ['r', 'u', 'e'] cs).map (fun r => (.bool true, r))
    else if c.toNat = 102 then
      (expectChars ['a', 'l', 's', 'e'] cs).map (fun r => (.bool false, r))
    else if c.toNat = 34 then
      (parseStringRest (cs.length + 1) cs).map (fun p => (.str (String.mk p.1), p.2))
    else if c.toNat = 45 then
      (parseNatNum cs).map (fun p => (.num (-(p.1 : Int)), p.2))
    else if c.toNat = 91 then
      match skipWs cs with
      | [] => none
      | c2 :: r2 =>
        if c2.toNat = 93 then some (.arr [], r2)
        else (parseElems fuel (c2 :: r2)).map (fun p => (.arr p.1, p.2))
    else if c.toNat = 123 then
      match skipWs cs with
      | [] => none
      | c2 :: r2 =>
        if c2.toNat = 125 then some (.obj [], r2)
        else (parseMembers fuel (c2 :: r2)).map (fun p => (.obj p.1, p.2))
    else if isDigitChar c then
      (parseNatNum (c :: cs)).map (fun p => (.num (p.1 : Int), p.2))
    else none

/-- Parse the comma-separated elements of a non-empty array, consuming the
closing bracket (code 93; the separator comma is code 44). -/
def parseElems : Nat → List Char → Option (List JsonValue × List Char)
  | 0, _ => none
  | fuel + 1, cs =>
    match parseVal fuel cs with
    | none => none
    | some p =>
      match skipWs p.2 with
      | [] => none
      | c2 :: r2 =>
        if c2.toNat = 44 then
          (parseElems fuel (skipWs r2)).map (fun q => (p.1 :: q.1, q.2))
        else if c2.toNat = 93 then some ([p.1], r2)
        else none

/-- Parse the comma-separated members of a non-empty object, consuming the
closing brace (code 125; the key-value separator colon is code 58). -/
def parseMembers : Nat → List Char → Option (List (String × JsonValue) × List Char)
  | 0, _ => none
  | _ + 1, [] => none
  | fuel + 1, c :: cs =>
    if c.toNat = 34 then
      match parseStringRest (cs.length + 1) cs with
      | none => none
      | some k =>
        match skipWs k.2 with
        | [] => none
        | c3 :: r3 =>
          if c3.toNat = 58 then
            match parseVal fuel (skipWs r3) with
            | none => none
            | some v =>
              match skipWs v.2 with
              | [] => none
              | c4 :: r4 =>
                if c4.toNat = 44 then
                  (parseMembers fuel (skipWs r4)).map
                    (fun tl => ((String.mk k.1, v.1) :: tl.1, tl.2))
                else if c4.toNat = 125 then some ([(String.mk k.1, v.1)], r4)
                else none
          else none
    else none

end

/-- Model of `utils.decode_json`: `json.loads` of UTF-8 decoded bytes (the
byte level identified with the string level). The result is `none` where
`json.loads` raises or where the document leaves the integer fragment. -/
def decode_json (s : String) : Option JsonValue :=
  let cs := skipWs s.data
  match parseVal (cs.length + 1) cs with
  | some p => if skipWs p.2 = [] then some p.1 else none
  | none => none

/-! ## Subject namer (`utils.prefix_topic`) -/

/-- Model of `utils.prefix_topic`: the canonical subject of a service action,
built by literal interpolation with no escaping. -/
def prefix_topic (service_name : String) (service_version : String)
    (action_name : String) : String :=
  "v" ++ service_version ++ "." ++ service_name ++ "." ++ action_name

/-! ## Broker connection model (`broker.py`) -/

/-- The transport client handle (`nats.aio.client.Client`), reduced to the one
attribute the repository reads. -/
structure ClientState where
  is_connected : Bool

/-- State of a `NatsBroker` instance: the optional transport handle and the
optional closed-signal future (`asyncio.Future`; the inner `Option` is `none`
while the future is pending and `some r` once resolved with `r`). -/
structure NatsBroker where
  servers : List String
  token : Option String
  nc : Option ClientState
  is_done : Option (Option Bool)

/-- The message of the RuntimeError raised by `_assert_connected`. -/
def notConnectedMsg : String := "NATS client is not connected."

/-- Model of `NatsBroker._assert_connected`: raises when the client reference
is absent (falsy) or the transport reports disconnected. -/
def _assert_connected (b : NatsBroker) : Except String Unit :=
  match b.nc with
  | none => .error notConnectedMsg
  | some c => if c.is_connected then .ok () else .error notConnectedMsg

/-- Model of `NatsBroker._require_client`: assert connectivity, then return
the (necessarily present) client handle. -/
def _require_client (b : NatsBroker) : Except String ClientState := do
  _assert_connected b
  match b.nc with
  | some c => .ok c
  | none => .error notConnectedMsg

/-- Model of `NatsBroker.closed_cb` acting on the closed-signal: resolve the
future with `True` only when it exists and is not yet done (an unguarded
`set_result` on a done `asyncio.Future` would raise InvalidStateError; the
guard makes the callback a total no-op after the first resolution). -/
def closed_cb (is_done : Option (Option Bool)) : Option (Option Bool) :=
  match is_done with
  | none => none
  | some fut => if fut.isSome then some fut else some (some true)

/-- An inbound transport message (`nats.aio.client.Msg`): raw payload bytes
and the reply subject, which nats-py leaves as the empty string when the
sender published fire-and-forget. -/
structure Msg where
  data : String
  reply : String

/-! ## Call context model -/

/-- Values stored in the call-context dict: the broker client reference, the
bound `emit` request capability, the raw message handle, or the decoded
payload. -/
inductive CtxEntry where
  | brokerRef : ClientState → CtxEntry
  | emitCap : CtxEntry
  | msgRef : Msg → CtxEntry
  | payload : JsonValue → CtxEntry

/-- Python `payload is None`: JSON null decodes to `None`, so `JsonValue.null`
plays the role of `None` throughout. -/
def pyIsNone : JsonValue → Bool
  | .null => true
  | _ => false

/-- The context dict built by `NatsBroker._context` once the client reference
is in hand, in insertion order: `broker` and `emit` always, `msg` when a
message was passed, `payload` only when the payload is not `None`. -/
def contextFields (client : ClientState) (msg : Option Msg)
    (payload : JsonValue) : List (String × CtxEntry) :=
  ([("broker", CtxEntry.brokerRef client), ("emit", CtxEntry.emitCap)]
    ++ (match msg with
        | some m => [("msg", CtxEntry.msgRef m)]
        | none => [])
    ++ (if pyIsNone payload then [] else [("payload", CtxEntry.payload payload)]))

/-- Model of `NatsBroker._context`: `_require_client` may raise; otherwise the
context dict is built from the live client. -/
def _context (b : NatsBroker) (msg : Option Msg) (payload : JsonValue) :
    Except String (List (String × CtxEntry)) :=
  (_require_client b).map (fun client => contextFields client msg payload)

/-- Context dict lookup. -/
def ctxGet (ctx : List (String × CtxEntry)) (k : String) : Option CtxEntry :=
  match ctx.find? (fun kv => kv.1 = k) with
  | some kv => some kv.2
  | none => none

/-- Python dict assignment `ctx[k] = v`: overwrite in place when the key is
present, append otherwise. -/
def ctxSet (ctx : List (String × CtxEntry)) (k : String) (v : CtxEntry) :
    List (String × CtxEntry) :=
  if ctx.any (fun kv => kv.1 = k) then
    ctx.map (fun kv => if kv.1 = k then (k, v) else kv)
  else ctx ++ [(k, v)]

/-! ## Request/reply (`NatsBroker.request`) -/

/-- Lookup in a decoded JSON object, modelling `dict.get` (returns `None`,
i.e. `none`, for a missing key). Keys of an object produced by a Python dict
are unique, so first-match lookup agrees with dict semantics. -/
def dictGet (fields : List (String × JsonValue)) (k : String) : Option JsonValue :=
  match fields.find? (fun kv => kv.1 = k) with
  | some kv => some kv.2
  | none => none

/-- Python truthiness of a JSON-representable value. -/
def pyTruthy : JsonValue → Bool
  | .null => false
  | .bool b => b
  | .num n => if n = 0 then false else true
  | .str s => if s = "" then false else true
  | .arr [] => false
  | .arr (_ :: _) => true
  | .obj [] => false
  | .obj (_ :: _) => true

/-- Truthiness of a `dict.get` result (`None` for a missing key is falsy). -/
def pyTruthyOpt : Option JsonValue → Bool
  | none => false
  | some v => pyTruthy v

/-- The exceptions `NatsBroker.request` can raise, by kind. The
`remoteHandler` kind is the `RuntimeError(response.get("message"))` raised on
a falsy `ok` field, carrying the envelope's `message` field (or `None`). -/
inductive RequestError where
  | notConnected : RequestError
  | decodeError : RequestError
  | attributeError : RequestError
  | remoteHandler : Option JsonValue → RequestError

/-- Model of `NatsBroker.request`. The transport is an oracle mapping the
subject and the encoded request payload to the raw reply bytes; the reply is
decoded and its envelope inspected: a falsy `ok` raises, a truthy `ok`
returns the whole decoded envelope. A non-dict reply makes `.get` raise
AttributeError, modelled by `attributeError`. -/
def request (b : NatsBroker) (transport : String → String → String)
    (topic : String) (payload : JsonValue) : Except RequestError JsonValue :=
  match _assert_connected b with
  | .error _ => .error .notConnected
  | .ok _ =>
    match decode_json (transport topic (encode_json payload)) with
    | none => .error .decodeError
    | some response =>
      match response with
      | .obj fields =>
        if pyTruthyOpt (dictGet fields ("ok")) then .ok response
        else .error (.remoteHandler (dictGet fields ("message")))
      | _ => .error .attributeError

/-! ## Publish and subscribe -/

/-- The transport-level effect of one `publish` call. -/
structure PublishEffect where
  subject : String
  payload : String
  reply : Option String
  headers : Option (List (String × String))
  flushed : Bool

/-- Model of `NatsBroker.publish`: require a connected client, then hand the
encoded payload to the transport (reified as the returned effect). -/
def publish (b : NatsBroker) (subject : String) (payload : JsonValue)
    (reply : Option String) (headers : Option (List (String × String)))
    (flush : Bool) : Except String PublishEffect :=
  match _require_client b with
  | .error e => .error e
  | .ok _ => .ok ⟨subject, encode_json payload, reply, headers, flush⟩

/-- The transport-level subscription created by one `subscribe` call
(`queue_arg = queue or ""`). -/
structure SubscribeEffect where
  subject : String
  queue : String

/-- Model of `NatsBroker.subscribe`: require a connected client, then
subscribe with the given subject and queue (empty string when unset). -/
def subscribe (b : NatsBroker) (subject : String) (queue : Option String) :
    Except String SubscribeEffect :=
  match _require_client b with
  | .error e => .error e
  | .ok _ => .ok ⟨subject, queue.getD ""⟩

/-- Stand-in for `str(json.JSONDecodeError)`; the exact text comes from
CPython's json module and is not part of this repository. -/
def jsonDecodeErrorMsg : String := "Expecting value: line 1 column 1 (char 0)"

/-- Context construction performed by `NatsBroker.subscribe._callback` with
the default JSON decoder: decode the message data, then derive the call
context (invoking the user handler is the caller's business and adds nothing
to the context). -/
def subscribe_callback_ctx (b : NatsBroker) (m : Msg) :
    Except String (List (String × CtxEntry)) :=
  match decode_json m.data with
  | none => .error jsonDecodeErrorMsg
  | some payload => _context b (some m) payload

/-! ## Action schema and dispatch adapter -/

/-- Model of `schema.ActionSchema`. A handler exception with text `e` is
modelled as `.error e` (carrying `str(exception)`). The `validate` field
models the call-site composite `lambda fields: validate(**fields).dict()`:
from the keyword bundle to the normalized payload dict, or an exception. -/
structure ActionSchema where
  name : String
  handle : List (String × CtxEntry) → Except String JsonValue
  queue : Bool
  validate : Option (List (String × JsonValue) → Except String (List (String × JsonValue)))

/-- Stand-in for the str() of the TypeError raised by `f(**payload)` when the
payload is not a mapping. -/
def kwUnpackTypeErrorMsg : String := "argument after ** must be a mapping"

/-- Keyword unpacking `validate(**payload)`: the decoded payload must be a
mapping, else a TypeError is raised. -/
def pyKwUnpack : JsonValue → Except String (List (String × JsonValue))
  | .obj fields => .ok fields
  | _ => .error kwUnpackTypeErrorMsg

/-- The try-block of `NatsBroker._prefix_action.msg_handle`: decode the data,
build the call context, optionally validate (replacing the context's payload
with the validator's normalized output), then invoke the handler. The first
exception aborts the pipeline. -/
def dispatch_pipeline (b : NatsBroker) (action : ActionSchema) (m : Msg) :
    Except String JsonValue := do
  let payload ← match decode_json m.data with
    | some v => Except.ok v
    | none => Except.error jsonDecodeErrorMsg
  let ctx ← _context b (some m) payload
  let ctx2 ← match action.validate with
    | none => Except.ok ctx
    | some vf => do
      let fields ← pyKwUnpack payload
      let norm ← vf fields
      Except.ok (ctxSet ctx ("payload") (CtxEntry.payload (.obj norm)))
  action.handle ctx2

/-- The success envelope `{"ok": true, "result": result}` as sent on the
reply subject. -/
def okEnvelope (result : JsonValue) : String :=
  encode_json (.obj [("ok", .bool true), ("result", result)])

/-- The failure envelope `{"ok": false, "message": str(exc)}` as sent on the
reply subject. -/
def errEnvelope (message : String) : String :=
  encode_json (.obj [("ok", .bool false), ("message", .str message)])

/-- What one dispatch of an inbound message produced: the envelopes sent via
`msg.respond` (in order) and the exception text logged by
`logger.exception`, if any. -/
structure DispatchOutcome where
  responses : List String
  loggedError : Option String

/-- Model of the whole `msg_handle` closure produced by
`NatsBroker._prefix_action`: run the pipeline under the try/except; respond
only when `msg.reply` is truthy (non-empty). The function is total — no
exception propagates out of the dispatch handler. -/
def msg_handle (b : NatsBroker) (action : ActionSchema) (m : Msg) : DispatchOutcome :=
  match dispatch_pipeline b action m with
  | .ok result => ⟨if m.reply = "" then [] else [okEnvelope result], none⟩
  | .error e => ⟨if m.reply = "" then [] else [errEnvelope e], some e⟩

/-! ## Service registration -/

/-- One transport subscription made by `create_service`: its subject, its
queue-group key (`none` when unset), and the action whose dispatch handler
was bound. -/
structure SubscriptionRec where
  subject : String
  queue : Option String
  actionName : String

/-- Model of `NatsBroker.create_service`: require a connected client, then
for every action and every worker index in `range workers` subscribe the
action's dispatch handler on the canonical subject, with queue key
`f"{subject}-{worker_id}"` when the action's queue flag is set. -/
def create_service (b : NatsBroker) (version : String) (name : String)
    (workers : Nat) (actions : List ActionSchema) :
    Except String (List SubscriptionRec) :=
  match _require_client b with
  | .error e => .error e
  | .ok _ =>
    .ok (actions.foldl (fun acc action =>
      (List.range workers).foldl (fun acc2 worker_id =>
        let subject := prefix_topic name version action.name
        acc2 ++ [⟨subject,
          if action.queue then some (subject ++ "-" ++ natRepr worker_id) else none,
          action.name⟩]) acc) [])

/-- Model of `service.CreateService`'s state. -/
structure CreateService where
  version : String
  name : String
  workers : Nat
  actions : List ActionSchema

/-- The dynamic value of `kwargs.get("actions")` in `CreateService.add`:
absent (or passed as `None`), a single schema, or a Python list of schemas. -/
inductive AddActionsArg where
  | absent : AddActionsArg
  | one : ActionSchema → AddActionsArg
  | many : List ActionSchema → AddActionsArg

/-- Model of `CreateService.add`: a list argument extends the action list, any
other non-None argument is appended as a single schema, and an absent
argument is a no-op. No deduplication or name check is performed. -/
def CreateService.add (s : CreateService) (arg : AddActionsArg) : CreateService :=
  match arg with
  | .absent => s
  | .many l => ⟨s.version, s.name, s.workers, s.actions ++ l⟩
  | .one a => ⟨s.version, s.name, s.workers, s.actions ++ [a]⟩

/-- Model of `CreateService.register`: delegate to the broker's
`create_service` with the registrar's accumulated state. -/
def CreateService.register (s : CreateService) (b : NatsBroker) :
    Except String (List SubscriptionRec) :=
  create_service b s.version s.name s.workers s.actions

/-! ## Claim C5: subject namer -/

/-- C5: for all (version, service name, action name) triples the subject namer
is a pure function (definitionally, being a Lean function) whose output is the
literal concatenation `v{version}.{service_name}.{action_name}`; the
character-level equation shows every input character is carried over verbatim,
with no escaping. -/
theorem prefix_topic_spec (service_name service_version action_name : String) :
    prefix_topic service_name service_version action_name
      = "v" ++ service_version ++ "." ++ service_name ++ "." ++ action_name
    ∧ (prefix_topic service_name service_version action_name).data
      = 'v' :: (service_version.data ++ '.' :: (service_name.data ++ '.' :: action_name.data)) := by
  refine ⟨rfl, ?_⟩
  simp [prefix_topic, String.data_append]

/-! ## Claim C8: CreateService.add -/

/-- C8: adding a single schema appends exactly that schema at the end, adding
a list of schemas appends all of them preserving their order, and an absent
argument changes nothing; both equations hold unconditionally, so no
deduplication or name-uniqueness check takes place. -/
theorem createservice_add_spec (s : CreateService) (a : ActionSchema)
    (l : List ActionSchema) :
    (s.add (.one a)).actions = s.actions ++ [a]
    ∧ (s.add (.many l)).actions = s.actions ++ l
    ∧ (s.add .absent).actions = s.actions := by
  exact ⟨rfl, rfl, rfl⟩

/-! ## Claim C9: one-shot closed signal -/

/-- C9: the closed callback resolves a pending closed-signal with `True`; on
an already-resolved signal (and in general, on any state it has already
produced) it is a no-op that leaves the signal unchanged, and it is total, so
it never raises. -/
theorem closed_cb_one_shot :
    closed_cb (some none) = some (some true)
    ∧ (∀ f : Option (Option Bool), closed_cb (closed_cb f) = closed_cb f)
    ∧ (∀ r : Bool, closed_cb (some (some r)) = some (some r)) := by
  refine ⟨rfl, ?_, fun r => rfl⟩
  intro f
  match f with
  | none => rfl
  | some none => rfl
  | some (some r) => rfl

/-! ## Claim C4: operations require a live connection -/

/-- C4: with no transport handle, or a handle that reports disconnected,
every transport-crossing operation (`request`, `publish`, `subscribe`,
`create_service`) fails with the not-connected error, for every possible
argument — it neither proceeds (no effect record is produced) nor hangs (the
model functions are total). -/
theorem not_connected_ops_fail (b : NatsBroker)
    (h : b.nc = none ∨ ∃ c, b.nc = some c ∧ c.is_connected = false) :
    (∀ transport topic payload,
        request b transport topic payload = .error .notConnected)
    ∧ (∀ subject payload reply headers flush,
        publish b subject payload reply headers flush = .error notConnectedMsg)
    ∧ (∀ subject queue, subscribe b subject queue = .error notConnectedMsg)
    ∧ (∀ version name workers actions,
        create_service b version name workers actions = .error notConnectedMsg) := by
  have hassert : _assert_connected b = .error notConnectedMsg := by
    rcases h with h | ⟨c, hc, hcon⟩
    · simp [_assert_connected, h]
    · simp [_assert_connected, hc, hcon]
  have hreq : _require_client b = .error notConnectedMsg := by
    simp [_require_client, hassert, Except.bind, bind]
  refine ⟨?_, ?_, ?_, ?_⟩ <;> intros <;>
    simp [request, publish, subscribe, create_service, hassert, hreq]

/-- Witness for C4 at a concrete never-connected broker. -/
theorem not_connected_ops_fail_witness :
    request ⟨[("nats://localhost:4222")], none, none, none⟩ (fun _ _ => (""))
        ("v1.svc.a") .null = .error .notConnected
    ∧ subscribe ⟨[("nats://localhost:4222")], none, none, none⟩ ("v1.svc.a") none
        = .error notConnectedMsg := by
  have h := not_connected_ops_fail ⟨[("nats://localhost:4222")], none, none, none⟩
    (Or.inl rfl)
  exact ⟨h.1 (fun _ _ => ("")) ("v1.svc.a") .null, h.2.2.1 ("v1.svc.a") none⟩

/-! ## Claim C2: false-ok envelopes surface as errors -/

/-- C2: whenever the decoded reply envelope carries `ok: false`, `request`
raises the remote-handler error whose message is exactly the envelope's
`message` field (as returned by `response.get("message")`), and in particular
it never hands a false-`ok` envelope back as a success value. -/
theorem request_false_ok_raises (b : NatsBroker)
    (transport : String → String → String) (topic : String) (payload : JsonValue)
    (fields : List (String × JsonValue))
    (hconn : _assert_connected b = .ok ())
    (hdec : decode_json (transport topic (encode_json payload)) = some (.obj fields))
    (hok : dictGet fields ("ok") = some (.bool false)) :
    request b transport topic payload
      = .error (.remoteHandler (dictGet fields ("message")))
    ∧ ∀ v, request b transport topic payload ≠ .ok v := by
  have heq : request b transport topic payload
      = .error (.remoteHandler (dictGet fields ("message"))) := by
    simp [request, hconn, hdec, hok, pyTruthyOpt, pyTruthy]
  refine ⟨heq, ?_⟩
  intro v hv
  rw [heq] at hv
  exact Except.noConfusion hv

/-- Witness for C2: a concrete connected broker whose transport replies with
a concrete false-`ok` envelope. -/
theorem request_false_ok_raises_witness :
    request ⟨[], none, some ⟨true⟩, none⟩
        (fun _ _ => ("\x7b\"ok\": false, \"message\": \"boom\"\x7d"))
        ("v1.svc.a") .null
      = .error (.remoteHandler (some (.str ("boom")))) := by
  have h := request_false_ok_raises ⟨[], none, some ⟨true⟩, none⟩
    (fun _ _ => ("\x7b\"ok\": false, \"message\": \"boom\"\x7d")) ("v1.svc.a") .null
    [("ok", .bool false), ("message", .str ("boom"))] rfl rfl rfl
  exact h.1

/-! ## Claim C1: dispatch adapter response framing -/

/-- C1: for every inbound message, when a reply address is present the
dispatch handler responds with exactly one envelope — the `ok: true`/`result`
envelope when decode, context construction, validation and the handler all
succeed, and the `ok: false`/`message: str(exc)` envelope when any of those
steps raises; when no reply address is present nothing is sent and a raised
exception is only logged. `msg_handle` is a total function, so no exception
propagates out of the dispatch handler in any case. -/
theorem dispatch_respond_spec (b : NatsBroker) (action : ActionSchema) (m : Msg) :
    (∀ r, dispatch_pipeline b action m = .ok r → m.reply ≠ "" →
        msg_handle b action m = ⟨[okEnvelope r], none⟩)
    ∧ (∀ e, dispatch_pipeline b action m = .error e → m.reply ≠ "" →
        msg_handle b action m = ⟨[errEnvelope e], some e⟩)
    ∧ (m.reply = "" → (msg_handle b action m).responses = [])
    ∧ (∀ e, dispatch_pipeline b action m = .error e →
        (msg_handle b action m).loggedError = some e) := by
  refine ⟨?_, ?_, ?_, ?_⟩
  · intro r hr hrep
    simp [msg_handle, hr, hrep]
  · intro e he hrep
    simp [msg_handle, he, hrep]
  · intro hrep
    cases hp : dispatch_pipeline b action m <;> simp [msg_handle, hp, hrep]
  · intro e he
    simp [msg_handle, he]

/-- Witness for C1: a concrete echo-style action answering a concrete
request-style message, and a concrete raising handler on a fire-and-forget
message (no reply sent, exception only logged). -/
theorem dispatch_respond_spec_witness :
    msg_handle ⟨[], none, some ⟨true⟩, none⟩
        ⟨("echo"), (fun _ => .ok (.num 7)), true, none⟩ ⟨("1"), ("inbox")⟩
      = ⟨[okEnvelope (.num 7)], none⟩
    ∧ (msg_handle ⟨[], none, some ⟨true⟩, none⟩
        ⟨("boom"), (fun _ => .error ("bad")), true, none⟩ ⟨("1"), ("")⟩).responses
      = [] := by
  constructor
  · exact (dispatch_respond_spec ⟨[], none, some ⟨true⟩, none⟩
      ⟨("echo"), (fun _ => .ok (.num 7)), true, none⟩ ⟨("1"), ("inbox")⟩).1
      (.num 7) rfl (by decide)
  · exact (dispatch_respond_spec ⟨[], none, some ⟨true⟩, none⟩
      ⟨("boom"), (fun _ => .error ("bad")), true, none⟩ ⟨("1"), ("")⟩).2.2.1 rfl

/-! ## Claim C7: the validation step -/

/-- C7: when the action carries a validator and the decoded payload is a
mapping, the payload's fields are unpacked into the validator; on success the
handler is invoked with the context whose payload entry has been replaced by
the validator's normalized output, and when the validator raises, the failure
aborts the pipeline exactly like a handler exception, producing the error
envelope whenever a reply address exists. -/
theorem validate_step_spec (b : NatsBroker) (client : ClientState)
    (action : ActionSchema) (m : Msg)
    (vf : List (String × JsonValue) → Except String (List (String × JsonValue)))
    (fields : List (String × JsonValue))
    (hreq : _require_client b = .ok client)
    (hval : action.validate = some vf)
    (hdec : decode_json m.data = some (.obj fields)) :
    (∀ norm, vf fields = .ok norm →
        dispatch_pipeline b action m
          = action.handle (ctxSet (contextFields client (some m) (.obj fields))
              ("payload") (CtxEntry.payload (.obj norm))))
    ∧ (∀ e, vf fields = .error e →
        dispatch_pipeline b action m = .error e
        ∧ (m.reply ≠ "" → (msg_handle b action m).responses = [errEnvelope e])) := by
  constructor
  · intro norm hnorm
    simp [dispatch_pipeline, hdec, _context, hreq, hval, pyKwUnpack, hnorm,
      Except.bind, bind, Except.map]
  · intro e he
    have hp : dispatch_pipeline b action m = .error e := by
      simp [dispatch_pipeline, hdec, _context, hreq, hval, pyKwUnpack, he,
        Except.bind, bind, Except.map]
    refine ⟨hp, ?_⟩
    intro hrep
    simp [msg_handle, hp, hrep]

/-- Witness for C7: a concrete validator that normalizes the payload, and the
handler observing the replaced payload entry. -/
theorem validate_step_spec_witness :
    dispatch_pipeline ⟨[], none, some ⟨true⟩, none⟩
        ⟨("act"), (fun _ => .ok (.arr [])),
         true, some (fun _ => .ok [("x", .num 2)])⟩
        ⟨("\x7b\"x\": 1\x7d"), ("inbox")⟩
      = Except.ok (.arr []) := by
  have h := (validate_step_spec ⟨[], none, some ⟨true⟩, none⟩ ⟨true⟩
    ⟨("act"), (fun _ => .ok (.arr [])),
     true, some (fun _ => .ok [("x", .num 2)])⟩
    ⟨("\x7b\"x\": 1\x7d"), ("inbox")⟩
    (fun _ => .ok [("x", .num 2)]) [("x", .num 1)] rfl rfl rfl).1
    [("x", .num 2)] rfl
  rw [h]

/-! ## Claim C10: call context contents (corrected) -/

/-- C10 counterexample: the inbound message `null` decodes successfully, yet
the call context constructed for it contains no payload entry at all (the
Python code guards the insertion with `payload is not None`, and JSON null
decodes to `None`). This refutes the claim's "for every decodable inbound
payload value, including JSON null". -/
theorem context_null_payload_counterexample :
    decode_json ("null") = some .null
    ∧ subscribe_callback_ctx ⟨[], none, some ⟨true⟩, none⟩ ⟨("null"), ("")⟩
        = .ok [("broker", .brokerRef ⟨true⟩), ("emit", .emitCap),
               ("msg", .msgRef ⟨("null"), ("")⟩)]
    ∧ ctxGet [("broker", CtxEntry.brokerRef ⟨true⟩), ("emit", .emitCap),
              ("msg", .msgRef ⟨("null"), ("")⟩)] ("payload") = none := by
  refine ⟨rfl, rfl, rfl⟩

/-- C10 (amended): every context constructed by a connected broker contains
the active client reference under `broker` and the emit capability under
`emit`; a context for an inbound message also contains the message handle
under `msg`; the decoded (and possibly validated) payload is present under
`payload` for every decodable payload other than JSON null — when the payload
is JSON null (Python `None`), the entry is omitted. -/
theorem context_contents_spec (b : NatsBroker) (client : ClientState)
    (msg : Option Msg) (payload : JsonValue)
    (hreq : _require_client b = .ok client) :
    _context b msg payload = .ok (contextFields client msg payload)
    ∧ ctxGet (contextFields client msg payload) ("broker")
        = some (.brokerRef client)
    ∧ ctxGet (contextFields client msg payload) ("emit") = some .emitCap
    ∧ (∀ m, msg = some m →
        ctxGet (contextFields client msg payload) ("msg") = some (.msgRef m))
    ∧ (pyIsNone payload = false →
        ctxGet (contextFields client msg payload) ("payload")
          = some (.payload payload))
    ∧ (pyIsNone payload = true →
        ctxGet (contextFields client msg payload) ("payload") = none) := by
  refine ⟨?_, ?_, ?_, ?_, ?_, ?_⟩
  · simp [_context, hreq, Except.map]
  · simp [ctxGet, contextFields]
  · simp [ctxGet, contextFields]
  · intro m hm
    subst hm
    cases hp : pyIsNone payload <;> simp [ctxGet, contextFields, hp]
  · intro hp
    cases msg <;> simp [ctxGet, contextFields, hp]
  · intro hp
    cases msg <;> simp [ctxGet, contextFields, hp]

/-- Witness for C10 (amended), at a concrete connected broker, a concrete
message and a non-null payload. -/
theorem context_contents_spec_witness :
    ctxGet (contextFields ⟨true⟩ (some ⟨("1"), ("")⟩) (.num 1)) ("payload")
      = some (.payload (.num 1)) := by
  exact (context_contents_spec ⟨[], none, some ⟨true⟩, none⟩ ⟨true⟩
    (some ⟨("1"), ("")⟩) (.num 1) rfl).2.2.2.2.1 rfl

/-! ## Decimal representation lemmas (for queue-key distinctness) -/

/-- Value of a little-endian digit list (proof-side companion of
`natDigitsLE`). -/
def ofDigitsLE : List Nat → Nat
  | [] => 0
  | d :: tl => d + 10 * ofDigitsLE tl

theorem natDigitsLE_ofLE : ∀ fuel n, n ≤ fuel → ofDigitsLE (natDigitsLE fuel n) = n := by
  intro fuel
  induction fuel with
  | zero =>
    intro n hn
    interval_cases n
    rfl
  | succ f ih =>
    intro n hn
    match n with
    | 0 => rfl
    | m + 1 =>
      have hdiv : (m + 1) / 10 ≤ f := by omega
      simp only [natDigitsLE, ofDigitsLE, ih ((m + 1) / 10) hdiv]
      omega

theorem natDigitsLE_lt : ∀ fuel n d, d ∈ natDigitsLE fuel n → d < 10 := by
  intro fuel
  induction fuel with
  | zero =>
    intro n d h
    simp [natDigitsLE] at h
  | succ f ih =>
    intro n d h
    match n with
    | 0 => simp [natDigitsLE] at h
    | m + 1 =>
      simp only [natDigitsLE, List.mem_cons] at h
      rcases h with h | h
      · omega
      · exact ih _ _ h

/-- toNat of `Char.ofNat` at a valid code point. -/
theorem toNat_charOfNat (n : Nat) (h : n.isValidChar) : (Char.ofNat n).toNat = n := by
  simp only [Char.ofNat, dif_pos h, Char.ofNatAux, Char.toNat, Nat.toUInt32]
  rfl

theorem digitChar_toNat (d : Nat) (h : d < 10) : (digitChar d).toNat = 48 + d := by
  exact toNat_charOfNat (48 + d) (Or.inl (by omega))

/-- Recover the value of a most-significant-first decimal character list
(proof-side left inverse of `natChars`). -/
def charsToVal (cs : List Char) : Nat :=
  ofDigitsLE (cs.reverse.map (fun c => c.toNat - 48))

theorem charsToVal_natChars (n : Nat) : charsToVal (natChars n) = n := by
  by_cases h0 : n = 0
  · subst h0
    rfl
  · unfold natChars charsToVal
    simp only [if_neg h0, List.reverse_reverse, List.map_map]
    have hmap : (natDigitsLE n n).map ((fun c => c.toNat - 48) ∘ digitChar)
        = natDigitsLE n n := by
      have := List.map_congr_left (l := natDigitsLE n n)
        (f := (fun c => c.toNat - 48) ∘ digitChar) (g := fun d => d)
        (fun d hd => by
          have hlt := natDigitsLE_lt n n d hd
          simp [Function.comp, digitChar_toNat d hlt])
      simpa using this
    rw [hmap]
    exact natDigitsLE_ofLE n n (le_refl n)

/-- Queue keys `{subject}-{i}` built from distinct worker indices differ. -/
theorem queue_key_inj (subject : String) (i j : Nat)
    (h : subject ++ "-" ++ natRepr i = subject ++ "-" ++ natRepr j) : i = j := by
  have hd := congrArg String.data h
  simp only [String.data_append] at hd
  have hchars : natChars i = natChars j := List.append_cancel_left hd
  calc i = charsToVal (natChars i) := (charsToVal_natChars i).symm
    _ = charsToVal (natChars j) := by rw [hchars]
    _ = j := charsToVal_natChars j

/-! ## Claim C3: create_service subscription layout -/

theorem foldl_append_map {α β : Type _} (f : α → β) :
    ∀ (l : List α) (acc : List β),
      l.foldl (fun acc2 x => acc2 ++ [f x]) acc = acc ++ l.map f := by
  intro l
  induction l with
  | nil =>
    intro acc
    simp
  | cons x tl ih =>
    intro acc
    simp [ih]

theorem foldl_nested_flatMap {α β γ : Type _} (g : α → γ → β) (inner : List γ) :
    ∀ (l : List α) (acc : List β),
      l.foldl (fun acc1 a => inner.foldl (fun acc2 c => acc2 ++ [g a c]) acc1) acc
        = acc ++ l.flatMap (fun a => inner.map (g a)) := by
  intro l
  induction l with
  | nil =>
    intro acc
    simp
  | cons a tl ih =>
    intro acc
    simp only [List.foldl_cons, foldl_append_map (g a) inner acc, ih]
    simp [List.append_assoc]

theorem length_flatMap_map {α β γ : Type _} (g : α → γ → β) (inner : List γ) :
    ∀ l : List α, (l.flatMap (fun a => inner.map (g a))).length
      = l.length * inner.length := by
  intro l
  induction l with
  | nil => simp
  | cons a tl ih =>
    simp only [List.flatMap_cons, List.length_append, List.length_map, ih,
      List.length_cons]
    ring

/-- C3: with a connected client, `create_service` produces exactly one
subscription per (action, worker index) pair, laid out action-major; within
one action all `workers` subscriptions share the same canonical subject; the
queue key is `{subject}-{worker_index}` when the action's queue flag is true
(and these keys are pairwise distinct across distinct worker indices) and is
unset on every subscription when the flag is false. -/
theorem create_service_spec (b : NatsBroker) (client : ClientState)
    (version name : String) (workers : Nat) (actions : List ActionSchema)
    (hreq : _require_client b = .ok client) :
    create_service b version name workers actions
      = .ok (actions.flatMap (fun action =>
          (List.range workers).map (fun worker_id =>
            (⟨prefix_topic name version action.name,
              if action.queue then
                some (prefix_topic name version action.name ++ "-" ++ natRepr worker_id)
              else none,
              action.name⟩ : SubscriptionRec))))
    ∧ (actions.flatMap (fun action =>
          (List.range workers).map (fun worker_id =>
            (⟨prefix_topic name version action.name,
              if action.queue then
                some (prefix_topic name version action.name ++ "-" ++ natRepr worker_id)
              else none,
              action.name⟩ : SubscriptionRec)))).length
        = actions.length * workers
    ∧ (∀ subject : String, ∀ i j : Nat, i ≠ j →
        subject ++ "-" ++ natRepr i ≠ subject ++ "-" ++ natRepr j) := by
  refine ⟨?_, ?_, ?_⟩
  · unfold create_service
    rw [hreq]
    rw [foldl_nested_flatMap
      (fun action worker_id =>
        (⟨prefix_topic name version action.name,
          if action.queue then
            some (prefix_topic name version action.name ++ "-" ++ natRepr worker_id)
          else none,
          action.name⟩ : SubscriptionRec))
      (List.range workers) actions []]
    simp
  · rw [length_flatMap_map]
    simp
  · intro subject i j hne heq
    exact hne (queue_key_inj subject i j heq)

/-- Witness for C3: three workers, one queued action — three subscriptions on
the same subject with the three distinct queue keys. -/
theorem create_service_spec_witness :
    create_service ⟨[], none, some ⟨true⟩, none⟩ ("1") ("svc") 3
        [⟨("a"), (fun _ => .ok .null), true, none⟩]
      = .ok [⟨("v1.svc.a"), some ("v1.svc.a-0"), ("a")⟩,
             ⟨("v1.svc.a"), some ("v1.svc.a-1"), ("a")⟩,
             ⟨("v1.svc.a"), some ("v1.svc.a-2"), ("a")⟩] := by
  have h := (create_service_spec ⟨[], none, some ⟨true⟩, none⟩ ⟨true⟩ ("1") ("svc") 3
    [⟨("a"), (fun _ => .ok .null), true, none⟩] rfl).1
  rw [h]
  rfl

/-! ## Round-trip lemmas: characters, hex and string escapes -/

theorem char_eq_of_toNat_eq {c : Char} {n : Nat} (h : c.toNat = n) :
    c = Char.ofNat n := by
  rw [← h, Char.ofNat_toNat]

theorem char_toNat_valid (c : Char) :
    c.toNat < 55296 ∨ (57343 < c.toNat ∧ c.toNat < 1114112) := by
  rcases c.valid with h1 | ⟨h2, h3⟩
  · exact Or.inl h1
  · exact Or.inr ⟨h2, h3⟩

theorem hexVal_hexDigitChar (d : Nat) (h : d < 16) :
    hexVal (hexDigitChar d) = some d := by
  interval_cases d <;> decide

theorem readHex4_hex4 (n : Nat) (h : n < 65536) (rest : List Char) :
    readHex4 (hex4 n ++ rest) = some (n, rest) := by
  have h1 : n / 4096 % 16 < 16 := Nat.mod_lt _ (by omega)
  have h2 : n / 256 % 16 < 16 := Nat.mod_lt _ (by omega)
  have h3 : n / 16 % 16 < 16 := Nat.mod_lt _ (by omega)
  have h4 : n % 16 < 16 := Nat.mod_lt _ (by omega)
  simp only [hex4, List.cons_append, List.nil_append]
  simp [readHex4, hexVal_hexDigitChar _ h1, hexVal_hexDigitChar _ h2,
    hexVal_hexDigitChar _ h3, hexVal_hexDigitChar _ h4]
  omega

theorem skipWs_cons_of_not_ws (c : Char) (cs : List Char)
    (h : isWsChar c = false) : skipWs (c :: cs) = c :: cs := by
  simp [skipWs, h]

theorem skipWs_space (cs : List Char) : skipWs (' ' :: cs) = skipWs cs := rfl

/-- A non-surrogate `\uXXXX` digit block decodes to its code point. -/
theorem decodeUEsc_basic (n : Nat) (mid : List Char) (h16 : n < 65536)
    (hs1 : ¬(55296 ≤ n ∧ n ≤ 56319)) (hs2 : ¬(56320 ≤ n ∧ n ≤ 57343)) :
    decodeUEsc (hex4 n ++ mid) = some (n, mid) := by
  simp [decodeUEsc, readHex4_hex4 n h16 mid, hs1, hs2]

/-- A high surrogate followed by a low surrogate decodes to the combined
astral code point. -/
theorem decodeUEsc_pair (hi lo : Nat) (mid : List Char)
    (hhi : 55296 ≤ hi ∧ hi ≤ 56319) (hlo2 : 56320 ≤ lo ∧ lo ≤ 57343) :
    decodeUEsc (hex4 hi ++ ('\\' :: 'u' :: (hex4 lo ++ mid)))
      = some (65536 + 1024 * (hi - 55296) + (lo - 56320), mid) := by
  have hr1 := readHex4_hex4 hi (by omega) ('\\' :: 'u' :: (hex4 lo ++ mid))
  have hr2 := readHex4_hex4 lo (by omega) mid
  simp [decodeUEsc, hr1, hr2, hhi.1, hhi.2, hlo2.1, hlo2.2,
    show ('\\').toNat = 92 from rfl, show ('u').toNat = 117 from rfl]

/-- Any successfully decoded `\u` escape contributes exactly one character. -/
theorem parseStringRest_uescape (fuel : Nat) (cs mid : List Char) (n : Nat)
    (hd : decodeUEsc cs = some (n, mid)) :
    parseStringRest (fuel + 1) ('\\' :: 'u' :: cs)
      = (parseStringRest fuel mid).map (fun p => (Char.ofNat n :: p.1, p.2)) := by
  cases hp : parseStringRest fuel mid <;>
    simp [parseStringRest, hd, hp,
      show ('\\').toNat = 92 from rfl, show ('u').toNat = 117 from rfl]

set_option maxHeartbeats 1600000 in
/-- Decoding undoes `escapeChar`, one character at a time. -/
theorem escStep (c : Char) (fuel : Nat) (mid : List Char) :
    parseStringRest (fuel + 1) (escapeChar c ++ mid)
      = (parseStringRest fuel mid).map (fun p => (c :: p.1, p.2)) := by
  unfold escapeChar
  split_ifs with h34 h92 h8 h9 h10 h12 h13 hlt32 hlt127 hlt65536
  · obtain rfl : c = '"' := char_eq_of_toNat_eq h34
    cases hp : parseStringRest fuel mid <;>
      simp [parseStringRest, unescapeSimple, hp,
        show ('\\').toNat = 92 from rfl, show ('"').toNat = 34 from rfl]
  · obtain rfl : c = '\\' := char_eq_of_toNat_eq h92
    cases hp : parseStringRest fuel mid <;>
      simp [parseStringRest, unescapeSimple, hp,
        show ('\\').toNat = 92 from rfl]
  · obtain rfl : c = Char.ofNat 8 := char_eq_of_toNat_eq h8
    cases hp : parseStringRest fuel mid <;>
      simp [parseStringRest, unescapeSimple, hp,
        show ('\\').toNat = 92 from rfl, show ('b').toNat = 98 from rfl]
  · obtain rfl : c = Char.ofNat 9 := char_eq_of_toNat_eq h9
    cases hp : parseStringRest fuel mid <;>
      simp [parseStringRest, unescapeSimple, hp,
        show ('\\').toNat = 92 from rfl, show ('t').toNat = 116 from rfl]
  · obtain rfl : c = Char.ofNat 10 := char_eq_of_toNat_eq h10
    cases hp : parseStringRest fuel mid <;>
      simp [parseStringRest, unescapeSimple, hp,
        show ('\\').toNat = 92 from rfl, show ('n').toNat = 110 from rfl]
  · obtain rfl : c = Char.ofNat 12 := char_eq_of_toNat_eq h12
    cases hp : parseStringRest fuel mid <;>
      simp [parseStringRest, unescapeSimple, hp,
        show ('\\').toNat = 92 from rfl, show ('f').toNat = 102 from rfl]
  · obtain rfl : c = Char.ofNat 13 := char_eq_of_toNat_eq h13
    cases hp : parseStringRest fuel mid <;>
      simp [parseStringRest, unescapeSimple, hp,
        show ('\\').toNat = 92 from rfl, show ('r').toNat = 114 from rfl]
  · simp only [List.cons_append]
    rw [parseStringRest_uescape fuel (hex4 c.toNat ++ mid) mid c.toNat
      (decodeUEsc_basic c.toNat mid (by omega) (by omega) (by omega))]
    rw [Char.ofNat_toNat]
  · have h34f : ¬(c.toNat = 34) := h34
    have h92f : ¬(c.toNat = 92) := h92
    simp only [List.cons_append, List.nil_append, parseStringRest,
      if_neg h34f, if_neg h92f]
    cases hp : parseStringRest fuel mid <;> simp [hp]
  · have hval := char_toNat_valid c
    simp only [List.cons_append]
    rw [parseStringRest_uescape fuel (hex4 c.toNat ++ mid) mid c.toNat
      (decodeUEsc_basic c.toNat mid (by omega) (by omega) (by omega))]
    rw [Char.ofNat_toNat]
  · have hval := char_toNat_valid c
    have hranges : 65536 ≤ c.toNat ∧ c.toNat < 1114112 := by omega
    simp only [List.cons_append, List.append_assoc]
    rw [parseStringRest_uescape fuel
      (hex4 (55296 + (c.toNat - 65536) / 1024)
        ++ ('\\' :: 'u' :: (hex4 (56320 + (c.toNat - 65536) % 1024) ++ mid)))
      mid _
      (decodeUEsc_pair (55296 + (c.toNat - 65536) / 1024)
        (56320 + (c.toNat - 65536) % 1024) mid
        ⟨by omega, by omega⟩ ⟨by omega, by omega⟩)]
    have hn : 65536 + 1024 * ((55296 + (c.toNat - 65536) / 1024) - 55296)
        + ((56320 + (c.toNat - 65536) % 1024) - 56320) = c.toNat := by omega
    rw [hn, Char.ofNat_toNat]

/-! ## Round-trip: whole strings -/

theorem escapeChar_length_pos (c : Char) : 1 ≤ (escapeChar c).length := by
  by_cases h34 : c.toNat = 34
  · simp [escapeChar, h34]
  by_cases h92 : c.toNat = 92
  · simp [escapeChar, h34, h92]
  by_cases h8 : c.toNat = 8
  · simp [escapeChar, h34, h92, h8]
  by_cases h9 : c.toNat = 9
  · simp [escapeChar, h34, h92, h8, h9]
  by_cases h10 : c.toNat = 10
  · simp [escapeChar, h34, h92, h8, h9, h10]
  by_cases h12 : c.toNat = 12
  · simp [escapeChar, h34, h92, h8, h9, h10, h12]
  by_cases h13 : c.toNat = 13
  · simp [escapeChar, h34, h92, h8, h9, h10, h12, h13]
  by_cases hlt32 : c.toNat < 32
  · simp [escapeChar, h34, h92, h8, h9, h10, h12, h13, hlt32, hex4]
  by_cases hlt127 : c.toNat < 127
  · simp [escapeChar, h34, h92, h8, h9, h10, h12, h13, hlt32, hlt127]
  by_cases hlt65536 : c.toNat < 65536
  · simp [escapeChar, h34, h92, h8, h9, h10, h12, h13, hlt32, hlt127,
      hlt65536, hex4]
  · simp [escapeChar, h34, h92, h8, h9, h10, h12, h13, hlt32, hlt127,
      hlt65536, hex4]

theorem escChars_length (l : List Char) : l.length ≤ (escChars l).length := by
  induction l with
  | nil => simp [escChars]
  | cons c tl ih =>
    have := escapeChar_length_pos c
    simp only [escChars, List.length_append, List.length_cons]
    omega

/-- The string parser undoes `escChars`, consuming the closing quote. -/
theorem parseStringRest_escChars (l : List Char) :
    ∀ (fuel : Nat) (rest : List Char), l.length < fuel →
      parseStringRest fuel (escChars l ++ ('"' :: rest)) = some (l, rest) := by
  induction l with
  | nil =>
    intro fuel rest hf
    cases fuel with
    | zero => omega
    | succ f =>
      simp [escChars, parseStringRest, show ('"').toNat = 34 from rfl]
  | cons c tl ih =>
    intro fuel rest hf
    cases fuel with
    | zero => omega
    | succ f =>
      have hlen : tl.length < f := by
        simp only [List.length_cons] at hf
        omega
      simp only [escChars, List.append_assoc]
      rw [escStep c f (escChars tl ++ '"' :: rest)]
      rw [ih f rest hlen]
      rfl

/-! ## Round-trip: numbers -/

theorem natDigitsLE_last_ne_zero : ∀ fuel n, 0 < n → n ≤ fuel →
    ∃ l d, natDigitsLE fuel n = l ++ [d] ∧ d ≠ 0 := by
  intro fuel
  induction fuel with
  | zero =>
    intro n h0 hle
    omega
  | succ f ih =>
    intro n h0 hle
    match n, h0 with
    | m + 1, _ =>
      by_cases hq : (m + 1) / 10 = 0
      · refine ⟨[], (m + 1) % 10, ?_, by omega⟩
        simp only [natDigitsLE, hq, List.nil_append]
        cases f <;> rfl
      · obtain ⟨l, d, hl, hd⟩ := ih ((m + 1) / 10) (by omega) (by omega)
        refine ⟨((m + 1) % 10) :: l, d, ?_, hd⟩
        simp only [natDigitsLE, hl, List.cons_append]

theorem takeDigits_append (l : List Char) (rest : List Char)
    (hl : ∀ c ∈ l, isDigitChar c = true)
    (hrest : ∀ c, rest.head? = some c → isDigitChar c = false) :
    takeDigits (l ++ rest) = (l.map (fun c => c.toNat - 48), rest) := by
  induction l with
  | nil =>
    cases rest with
    | nil => rfl
    | cons r rs =>
      have := hrest r rfl
      simp [takeDigits, this]
  | cons c tl ih =>
    have hc := hl c (List.mem_cons_self c tl)
    have ihh := ih (fun x hx => hl x (List.mem_cons_of_mem c hx))
    simp [takeDigits, hc, ihh]

theorem natChars_digits (n : Nat) : ∀ c ∈ natChars n, isDigitChar c = true := by
  intro c hc
  unfold natChars at hc
  by_cases h0 : n = 0
  · rw [if_pos h0] at hc
    simp only [List.mem_singleton] at hc
    subst hc
    decide
  · rw [if_neg h0] at hc
    rw [List.mem_reverse] at hc
    obtain ⟨d, hd, rfl⟩ := List.mem_map.mp hc
    have hlt := natDigitsLE_lt n n d hd
    simp [isDigitChar, digitChar_toNat d hlt]
    omega

theorem natChars_ne_nil (n : Nat) : natChars n ≠ [] := by
  unfold natChars
  by_cases h0 : n = 0
  · rw [if_pos h0]
    simp
  · rw [if_neg h0]
    match n, h0 with
    | m + 1, _ =>
      simp [natDigitsLE]

theorem foldl_reverse_ofDigitsLE (l : List Nat) :
    (l.reverse).foldl (fun a d => 10 * a + d) 0 = ofDigitsLE l := by
  induction l with
  | nil => rfl
  | cons d tl ih =>
    simp only [List.reverse_cons, List.foldl_append, List.foldl_cons,
      List.foldl_nil, ih, ofDigitsLE]
    omega

theorem digitsToNat_eq_charsToVal (cs : List Char) :
    digitsToNat (cs.map (fun c => c.toNat - 48)) = charsToVal cs := by
  unfold digitsToNat charsToVal
  rw [List.map_reverse]
  rw [← foldl_reverse_ofDigitsLE ((cs.map (fun c => c.toNat - 48)).reverse)]
  rw [List.reverse_reverse]

theorem digitsToNat_natChars (n : Nat) :
    digitsToNat ((natChars n).map (fun c => c.toNat - 48)) = n := by
  rw [digitsToNat_eq_charsToVal, charsToVal_natChars]

theorem natChars_no_leading_zero (n : Nat) (d : Nat) (tl : List Nat)
    (h : (natChars n).map (fun c => c.toNat - 48) = d :: tl) :
    ¬(d = 0 ∧ tl ≠ []) := by
  rintro ⟨hd0, htl⟩
  by_cases h0 : n = 0
  · subst h0
    rw [show natChars 0 = ['0'] from rfl] at h
    simp only [List.map_cons, List.map_nil] at h
    rw [List.cons.injEq] at h
    exact htl h.2.symm
  · obtain ⟨l, dd, hl, hdd⟩ := natDigitsLE_last_ne_zero n n (by omega) (le_refl n)
    have hmem : dd ∈ natDigitsLE n n := by
      rw [hl]
      exact List.mem_append_right l (List.mem_singleton.mpr rfl)
    have hddlt := natDigitsLE_lt n n dd hmem
    unfold natChars at h
    rw [if_neg h0, hl] at h
    simp only [List.map_append, List.map_cons, List.map_nil,
      List.reverse_append, List.reverse_cons, List.reverse_nil,
      List.nil_append, List.cons_append, List.map_map] at h
    rw [List.cons.injEq] at h
    have h1 : (digitChar dd).toNat - 48 = d := by
      have := h.1
      simpa using this
    rw [digitChar_toNat dd hddlt] at h1
    omega

/-- Side condition for parsing a decimal literal followed by `rest`: the
remainder must not begin with a digit or a float continuation. -/
def numBoundary : List Char → Prop
  | [] => True
  | c :: _ => isDigitChar c = false ∧ c.toNat ≠ 46 ∧ c.toNat ≠ 101 ∧ c.toNat ≠ 69

theorem parseNatNum_natChars (n : Nat) (rest : List Char) (hb : numBoundary rest) :
    parseNatNum (natChars n ++ rest) = some (n, rest) := by
  have hrest : ∀ c, rest.head? = some c → isDigitChar c = false := by
    intro c hc
    cases rest with
    | nil => simp at hc
    | cons r rs =>
      simp only [List.head?_cons, Option.some.injEq] at hc
      subst hc
      exact hb.1
  have htake := takeDigits_append (natChars n) rest (natChars_digits n) hrest
  unfold parseNatNum
  rw [htake]
  cases hm : (natChars n).map (fun c => c.toNat - 48) with
  | nil =>
    exfalso
    exact natChars_ne_nil n (List.map_eq_nil_iff.mp hm)
  | cons d tl =>
    simp only
    rw [if_neg (natChars_no_leading_zero n d tl hm)]
    cases rest with
    | nil =>
      simp only
      rw [← hm, digitsToNat_natChars]
    | cons r rs =>
      simp only
      rw [if_neg (by
        rintro (h46 | h101 | h69)
        · exact hb.2.1 h46
        · exact hb.2.2.1 h101
        · exact hb.2.2.2 h69)]
      rw [← hm, digitsToNat_natChars]

/-! ## Round-trip: whole documents -/

theorem isDigitChar_iff (c : Char) :
    isDigitChar c = true ↔ (48 ≤ c.toNat ∧ c.toNat ≤ 57) := by
  simp [isDigitChar]

theorem isWsChar_eq_false (c : Char)
    (h : c.toNat ≠ 32 ∧ c.toNat ≠ 9 ∧ c.toNat ≠ 10 ∧ c.toNat ≠ 13) :
    isWsChar c = false := by
  simp [isWsChar]
  omega

/-- Every encoding starts with a character that is neither whitespace nor one
of the structural continuation characters `]` `,` `x7d` `:`. -/
theorem encHead (v : JsonValue) :
    ∃ c cs, encodeVal v = c :: cs ∧ isWsChar c = false
      ∧ c.toNat ≠ 93 ∧ c.toNat ≠ 44 ∧ c.toNat ≠ 125 ∧ c.toNat ≠ 58 := by
  cases v with
  | null =>
    exact ⟨'n', ['u', 'l', 'l'], rfl, by decide, by decide, by decide,
      by decide, by decide⟩
  | bool b =>
    cases b with
    | true =>
      exact ⟨'t', ['r', 'u', 'e'], rfl, by decide, by decide, by decide,
        by decide, by decide⟩
    | false =>
      exact ⟨'f', ['a', 'l', 's', 'e'], rfl, by decide, by decide, by decide,
        by decide, by decide⟩
  | num i =>
    cases i with
    | ofNat n =>
      obtain ⟨c, cs, hc⟩ := List.exists_cons_of_ne_nil (natChars_ne_nil n)
      have hdig : isDigitChar c = true := natChars_digits n c (by
        rw [hc]
        exact List.mem_cons_self c cs)
      rw [isDigitChar_iff] at hdig
      refine ⟨c, cs, ?_, isWsChar_eq_false c (by omega), by omega, by omega,
        by omega, by omega⟩
      rw [show encodeVal (.num (.ofNat n)) = natChars n from rfl, hc]
    | negSucc m =>
      exact ⟨'-', natChars (m + 1), rfl, by decide, by decide, by decide,
        by decide, by decide⟩
  | str s =>
    exact ⟨'"', escChars s.data ++ ['"'], rfl, by decide, by decide, by decide,
      by decide, by decide⟩
  | arr l =>
    cases l with
    | nil =>
      exact ⟨'[', [']'], rfl, by decide, by decide, by decide, by decide,
        by decide⟩
    | cons v tl =>
      exact ⟨'[', (encodeVal v ++ encodeElemsRest tl) ++ [']'], rfl, by decide,
        by decide, by decide, by decide, by decide⟩
  | obj m =>
    cases m with
    | nil =>
      exact ⟨'{', ['}'], rfl, by decide, by decide, by decide, by decide,
        by decide⟩
    | cons kv tl =>
      exact ⟨'{', (encodeMember kv ++ encodeMembersRest tl) ++ ['}'], rfl,
        by decide, by decide, by decide, by decide, by decide⟩

/-- Leading whitespace never eats into an encoded value. -/
theorem skipWs_encodeVal (v : JsonValue) (X : List Char) :
    skipWs (encodeVal v ++ X) = encodeVal v ++ X := by
  obtain ⟨c, cs, hc, hws, _, _, _, _⟩ := encHead v
  rw [hc, List.cons_append]
  exact skipWs_cons_of_not_ws c (cs ++ X) hws

theorem numBoundary_closing (c : Char) (tl : List Char)
    (h : c.toNat = 93 ∨ c.toNat = 44 ∨ c.toNat = 125) : numBoundary (c :: tl) := by
  refine ⟨?_, by omega, by omega, by omega⟩
  simp [isDigitChar]
  omega

mutual

/-- Fuel sufficient for `parseVal` to re-read one encoded value. -/
def jsonFuel : JsonValue → Nat
  | .null => 1
  | .bool _ => 1
  | .num _ => 1
  | .str _ => 1
  | .arr [] => 1
  | .arr (v :: tl) => 1 + elemsFuel v tl
  | .obj [] => 1
  | .obj (kv :: tl) => 1 + membersFuel kv tl
termination_by v => sizeOf v

/-- Fuel sufficient for `parseElems` on an encoded non-empty element list. -/
def elemsFuel : JsonValue → List JsonValue → Nat
  | v, [] => 1 + jsonFuel v
  | v, w :: tl => 1 + max (jsonFuel v) (elemsFuel w tl)
termination_by v tl => 1 + sizeOf v + sizeOf tl

/-- Fuel sufficient for `parseMembers` on an encoded non-empty member list. -/
def membersFuel : String × JsonValue → List (String × JsonValue) → Nat
  | (_, v), [] => 1 + jsonFuel v
  | (_, v), kv2 :: tl => 1 + max (jsonFuel v) (membersFuel kv2 tl)
termination_by kv tl => 1 + sizeOf kv + sizeOf tl

end

mutual

/-- Re-parsing an encoded value yields the value and leaves the rest intact,
provided the rest cannot be mistaken for a longer number literal. -/
theorem parseVal_encodeVal : ∀ (v : JsonValue) (fuel : Nat) (rest : List Char),
    jsonFuel v ≤ fuel → numBoundary rest →
    parseVal fuel (encodeVal v ++ rest) = some (v, rest)
  | .null, fuel, rest, hf, _ => by
    cases fuel with
    | zero => exact absurd hf (by simp [jsonFuel])
    | succ f =>
      simp only [encodeVal, List.cons_append, List.nil_append]
      simp [parseVal, show ('n').toNat = 110 from rfl,
        show expectChars ['u', 'l', 'l'] ('u' :: 'l' :: 'l' :: rest)
          = some rest from rfl]
  | .bool b, fuel, rest, hf, _ => by
    cases fuel with
    | zero => exact absurd hf (by simp [jsonFuel])
    | succ f =>
      cases b with
      | true =>
        rw [show encodeVal (.bool true) = ['t', 'r', 'u', 'e'] from rfl]
        simp only [List.cons_append, List.nil_append]
        simp [parseVal, show ('t').toNat = 116 from rfl,
          show expectChars ['r', 'u', 'e'] ('r' :: 'u' :: 'e' :: rest)
            = some rest from rfl]
      | false =>
        rw [show encodeVal (.bool false) = ['f', 'a', 'l', 's', 'e'] from rfl]
        simp only [List.cons_append, List.nil_append]
        simp [parseVal, show ('f').toNat = 102 from rfl,
          show expectChars ['a', 'l', 's', 'e'] ('a' :: 'l' :: 's' :: 'e' :: rest)
            = some rest from rfl]
  | .num i, fuel, rest, hf, hb => by
    cases fuel with
    | zero => exact absurd hf (by simp [jsonFuel])
    | succ f =>
      cases i with
      | ofNat n =>
        obtain ⟨c, cs, hc⟩ := List.exists_cons_of_ne_nil (natChars_ne_nil n)
        have hdig : isDigitChar c = true := natChars_digits n c (by
          rw [hc]
          exact List.mem_cons_self c cs)
        have hrange := (isDigitChar_iff c).mp hdig
        have hnum := parseNatNum_natChars n rest hb
        rw [show encodeVal (.num (.ofNat n)) = natChars n from rfl, hc,
          List.cons_append]
        rw [hc, List.cons_append] at hnum
        simp [parseVal, hdig, hnum,
          show c.toNat ≠ 110 from by omega, show c.toNat ≠ 116 from by omega,
          show c.toNat ≠ 102 from by omega, show c.toNat ≠ 34 from by omega,
          show c.toNat ≠ 45 from by omega, show c.toNat ≠ 91 from by omega,
          show c.toNat ≠ 123 from by omega]
      | negSucc m =>
        have hnum := parseNatNum_natChars (m + 1) rest hb
        rw [show encodeVal (.num (.negSucc m)) = '-' :: natChars (m + 1) from rfl,
          List.cons_append]
        simp [parseVal, hnum, show ('-').toNat = 45 from rfl]
        rw [Int.negSucc_eq]
        ring
  | .str s, fuel, rest, hf, _ => by
    cases fuel with
    | zero => exact absurd hf (by simp [jsonFuel])
    | succ f =>
      rw [show encodeVal (.str s) = '"' :: (escChars s.data ++ ['"']) from rfl,
        List.cons_append, List.append_assoc]
      simp only [List.cons_append, List.nil_append]
      simp [parseVal, show ('"').toNat = 34 from rfl]
      refine ⟨s.data, ?_, rfl⟩
      exact parseStringRest_escChars s.data _ _ (by
        have := escChars_length s.data
        omega)
  | .arr [], fuel, rest, hf, _ => by
    cases fuel with
    | zero => exact absurd hf (by simp [jsonFuel])
    | succ f =>
      simp only [encodeVal, List.cons_append, List.nil_append]
      simp [parseVal, show ('[').toNat = 91 from rfl,
        show (']').toNat = 93 from rfl,
        skipWs_cons_of_not_ws ']' rest (by decide)]
  | .arr (v :: tl), fuel, rest, hf, _ => by
    cases fuel with
    | zero => exact absurd hf (by simp [jsonFuel])
    | succ f =>
      have hef : elemsFuel v tl ≤ f := by
        simp only [jsonFuel] at hf
        omega
      obtain ⟨c, cs, hc, hws, h93, _, _, _⟩ := encHead v
      have hgoal : encodeVal (.arr (v :: tl)) ++ rest
          = '[' :: (c :: (cs ++ (encodeElemsRest tl ++ (']' :: rest)))) := by
        rw [show encodeVal (.arr (v :: tl))
            = '[' :: ((encodeVal v ++ encodeElemsRest tl) ++ [']']) from rfl,
          hc]
        simp [List.append_assoc]
      rw [hgoal]
      have hskip2 : skipWs (c :: (cs ++ (encodeElemsRest tl ++ (']' :: rest))))
          = c :: (cs ++ (encodeElemsRest tl ++ (']' :: rest))) :=
        skipWs_cons_of_not_ws c _ hws
      have hel : parseElems f (c :: (cs ++ (encodeElemsRest tl
          ++ (']' :: rest)))) = some (v :: tl, rest) := by
        have h0 := parseElems_encodeElems v tl f rest hef
        rw [hc] at h0
        simpa [List.append_assoc] using h0
      simp [parseVal, show ('[').toNat = 91 from rfl, hskip2, h93, hel]
  | .obj [], fuel, rest, hf, _ => by
    cases fuel with
    | zero => exact absurd hf (by simp [jsonFuel])
    | succ f =>
      simp only [encodeVal, List.cons_append, List.nil_append]
      simp [parseVal, show ('{').toNat = 123 from rfl,
        show ('}').toNat = 125 from rfl,
        skipWs_cons_of_not_ws '}' rest (by decide)]
  | .obj ((k2, w) :: tl), fuel, rest, hf, _ => by
    cases fuel with
    | zero => exact absurd hf (by simp [jsonFuel])
    | succ f =>
      have hmf : membersFuel (k2, w) tl ≤ f := by
        simp only [jsonFuel] at hf
        omega
      have hmc : encodeMember (k2, w)
          = '"' :: (escChars k2.data ++ ('"' :: ':' :: ' ' :: encodeVal w)) :=
        rfl
      have hgoal : encodeVal (.obj ((k2, w) :: tl)) ++ rest
          = '{' :: ('"' :: (escChars k2.data
            ++ ('"' :: ':' :: ' ' :: (encodeVal w
              ++ (encodeMembersRest tl ++ ('}' :: rest)))))) := by
        rw [show encodeVal (.obj ((k2, w) :: tl))
            = '{' :: ((encodeMember (k2, w) ++ encodeMembersRest tl)
              ++ ['}']) from rfl, hmc]
        simp [List.append_assoc]
      rw [hgoal]
      have hskip2 : skipWs ('"' :: (escChars k2.data
          ++ ('"' :: ':' :: ' ' :: (encodeVal w
            ++ (encodeMembersRest tl ++ ('}' :: rest))))))
          = '"' :: (escChars k2.data
            ++ ('"' :: ':' :: ' ' :: (encodeVal w
              ++ (encodeMembersRest tl ++ ('}' :: rest))))) :=
        skipWs_cons_of_not_ws '"' _ (by decide)
      have hm2 : parseMembers f ('"' :: (escChars k2.data
          ++ ('"' :: ':' :: ' ' :: (encodeVal w
            ++ (encodeMembersRest tl ++ ('}' :: rest))))))
          = some ((k2, w) :: tl, rest) := by
        have h0 := parseMembers_encodeMembers k2 w tl f rest hmf
        rw [hmc] at h0
        simpa [List.append_assoc] using h0
      simp [parseVal, show ('{').toNat = 123 from rfl, hskip2, hm2,
        show ('"').toNat = 34 from rfl]
termination_by v _ _ _ _ => sizeOf v

/-- Re-parsing an encoded non-empty element list, including the closing
bracket. -/
theorem parseElems_encodeElems : ∀ (v : JsonValue) (tl : List JsonValue)
    (fuel : Nat) (rest : List Char), elemsFuel v tl ≤ fuel →
    parseElems fuel ((encodeVal v ++ encodeElemsRest tl) ++ (']' :: rest))
      = some (v :: tl, rest)
  | v, [], fuel, rest, hf => by
    cases fuel with
    | zero => exact absurd hf (by simp [elemsFuel])
    | succ f =>
      have hjv : jsonFuel v ≤ f := by
        simp only [elemsFuel] at hf
        omega
      have hv := parseVal_encodeVal v f (']' :: rest) hjv
        (numBoundary_closing ']' rest (Or.inl rfl))
      simp only [encodeElemsRest, List.append_nil]
      simp [parseElems, hv, show (']').toNat = 93 from rfl,
        skipWs_cons_of_not_ws ']' rest (by decide)]
  | v, w :: tl2, fuel, rest, hf => by
    cases fuel with
    | zero => exact absurd hf (by simp [elemsFuel])
    | succ f =>
      have hjv : jsonFuel v ≤ f ∧ elemsFuel w tl2 ≤ f := by
        simp only [elemsFuel] at hf
        constructor <;> omega
      have hv := parseVal_encodeVal v f
        (',' :: ' ' :: (encodeVal w ++ (encodeElemsRest tl2 ++ (']' :: rest))))
        hjv.1 (numBoundary_closing ',' _ (Or.inr (Or.inl rfl)))
      have hrec2 : parseElems f (encodeVal w
          ++ (encodeElemsRest tl2 ++ (']' :: rest))) = some (w :: tl2, rest) := by
        rw [← List.append_assoc]
        exact parseElems_encodeElems w tl2 f rest hjv.2
      have hskipinner : skipWs (encodeVal w
          ++ (encodeElemsRest tl2 ++ (']' :: rest)))
          = encodeVal w ++ (encodeElemsRest tl2 ++ (']' :: rest)) :=
        skipWs_encodeVal w _
      have hshape : (encodeVal v ++ encodeElemsRest (w :: tl2)) ++ (']' :: rest)
          = encodeVal v ++ (',' :: ' '
            :: (encodeVal w ++ (encodeElemsRest tl2 ++ (']' :: rest)))) := by
        rw [show encodeElemsRest (w :: tl2)
            = ',' :: ' ' :: (encodeVal w ++ encodeElemsRest tl2) from rfl]
        simp [List.append_assoc]
      rw [hshape]
      simp [parseElems, hv, show (',').toNat = 44 from rfl,
        skipWs_cons_of_not_ws ','
          (' ' :: (encodeVal w ++ (encodeElemsRest tl2 ++ (']' :: rest))))
          (by decide),
        skipWs_space, hskipinner, hrec2]
termination_by v tl _ _ _ => 1 + sizeOf v + sizeOf tl

/-- Re-parsing an encoded non-empty member list, including the closing
brace. -/
theorem parseMembers_encodeMembers : ∀ (k : String) (v : JsonValue)
    (tl : List (String × JsonValue)) (fuel : Nat) (rest : List Char),
    membersFuel (k, v) tl ≤ fuel →
    parseMembers fuel ((encodeMember (k, v) ++ encodeMembersRest tl)
        ++ ('}' :: rest))
      = some ((k, v) :: tl, rest)
  | k, v, [], fuel, rest, hf => by
    cases fuel with
    | zero => exact absurd hf (by simp [membersFuel])
    | succ f =>
      rw [show encodeMember (k, v)
          = '"' :: (escChars k.data ++ ('"' :: ':' :: ' ' :: encodeVal v))
          from rfl]
      have hjv : jsonFuel v ≤ f := by
        simp only [membersFuel] at hf
        omega
      have hv := parseVal_encodeVal v f ('}' :: rest) hjv
        (numBoundary_closing '}' rest (Or.inr (Or.inr rfl)))
      have hshape : (('"' :: (escChars k.data ++ ('"' :: ':' :: ' '
            :: encodeVal v))) ++ encodeMembersRest []) ++ ('}' :: rest)
          = '"' :: (escChars k.data ++ ('"' :: ':' :: ' '
            :: (encodeVal v ++ ('}' :: rest)))) := by
        simp [encodeMembersRest, List.append_assoc]
      rw [hshape]
      simp [parseMembers, show ('"').toNat = 34 from rfl]
      rw [parseStringRest_escChars]
      · simp [show (':').toNat = 58 from rfl,
          skipWs_cons_of_not_ws ':'
            (' ' :: (encodeVal v ++ ('}' :: rest))) (by decide),
          skipWs_space, skipWs_encodeVal v ('}' :: rest), hv,
          skipWs_cons_of_not_ws '}' rest (by decide),
          show ('}').toNat = 125 from rfl]
      · have := escChars_length k.data
        omega
  | k, v, (k2, v2) :: tl2, fuel, rest, hf => by
    cases fuel with
    | zero => exact absurd hf (by simp [membersFuel])
    | succ f =>
      rw [show encodeMember (k, v)
          = '"' :: (escChars k.data ++ ('"' :: ':' :: ' ' :: encodeVal v))
          from rfl]
      have hjv : jsonFuel v ≤ f ∧ membersFuel (k2, v2) tl2 ≤ f := by
        simp only [membersFuel] at hf
        constructor <;> omega
      have hv := parseVal_encodeVal v f
        (',' :: ' ' :: (encodeMember (k2, v2)
          ++ (encodeMembersRest tl2 ++ ('}' :: rest))))
        hjv.1 (numBoundary_closing ',' _ (Or.inr (Or.inl rfl)))
      have hrec2 : parseMembers f (encodeMember (k2, v2)
          ++ (encodeMembersRest tl2 ++ ('}' :: rest)))
          = some ((k2, v2) :: tl2, rest) := by
        rw [← List.append_assoc]
        exact parseMembers_encodeMembers k2 v2 tl2 f rest hjv.2
      have hmc : encodeMember (k2, v2)
          = '"' :: (escChars k2.data ++ ('"' :: ':' :: ' ' :: encodeVal v2)) :=
        rfl
      have hskipmem : skipWs (encodeMember (k2, v2)
          ++ (encodeMembersRest tl2 ++ ('}' :: rest)))
          = encodeMember (k2, v2)
            ++ (encodeMembersRest tl2 ++ ('}' :: rest)) := by
        rw [hmc, List.cons_append]
        exact skipWs_cons_of_not_ws '"' _ (by decide)
      have hshape : (('"' :: (escChars k.data ++ ('"' :: ':' :: ' '
            :: encodeVal v))) ++ encodeMembersRest ((k2, v2) :: tl2))
            ++ ('}' :: rest)
          = '"' :: (escChars k.data ++ ('"' :: ':' :: ' '
            :: (encodeVal v ++ (',' :: ' '
              :: (encodeMember (k2, v2)
                ++ (encodeMembersRest tl2 ++ ('}' :: rest))))))) := by
        rw [show encodeMembersRest ((k2, v2) :: tl2)
            = ',' :: ' ' :: (encodeMember (k2, v2) ++ encodeMembersRest tl2)
            from rfl]
        simp [List.append_assoc]
      rw [hshape]
      simp [parseMembers, show ('"').toNat = 34 from rfl]
      rw [parseStringRest_escChars]
      · simp [show (':').toNat = 58 from rfl,
          skipWs_cons_of_not_ws ':'
            (' ' :: (encodeVal v ++ (',' :: ' '
              :: (encodeMember (k2, v2)
                ++ (encodeMembersRest tl2 ++ ('}' :: rest)))))) (by decide),
          skipWs_space,
          skipWs_encodeVal v (',' :: ' '
            :: (encodeMember (k2, v2)
              ++ (encodeMembersRest tl2 ++ ('}' :: rest)))), hv,
          skipWs_cons_of_not_ws ','
            (' ' :: (encodeMember (k2, v2)
              ++ (encodeMembersRest tl2 ++ ('}' :: rest)))) (by decide),
          show (',').toNat = 44 from rfl, hskipmem, hrec2]
      · have := escChars_length k.data
        omega
termination_by k v tl _ _ _ => 1 + sizeOf v + sizeOf tl

end

mutual

/-- The fuel needed for a value never exceeds the length of its encoding. -/
theorem jsonFuel_le : ∀ (v : JsonValue), jsonFuel v ≤ (encodeVal v).length
  | .null => by
    simp only [jsonFuel]
    rw [show encodeVal .null = ['n', 'u', 'l', 'l'] from rfl]
    simp only [List.length_cons, List.length_nil]
    omega
  | .bool b => by
    cases b with
    | true =>
      simp only [jsonFuel]
      rw [show encodeVal (.bool true) = ['t', 'r', 'u', 'e'] from rfl]
      simp only [List.length_cons, List.length_nil]
      omega
    | false =>
      simp only [jsonFuel]
      rw [show encodeVal (.bool false) = ['f', 'a', 'l', 's', 'e'] from rfl]
      simp only [List.length_cons, List.length_nil]
      omega
  | .num i => by
    simp only [jsonFuel]
    cases i with
    | ofNat n =>
      rw [show encodeVal (.num (.ofNat n)) = natChars n from rfl]
      obtain ⟨c, cs, hc⟩ := List.exists_cons_of_ne_nil (natChars_ne_nil n)
      rw [hc]
      simp only [List.length_cons]
      omega
    | negSucc m =>
      rw [show encodeVal (.num (.negSucc m)) = '-' :: natChars (m + 1) from rfl]
      simp only [List.length_cons]
      omega
  | .str s => by
    simp only [jsonFuel]
    rw [show encodeVal (.str s) = '"' :: (escChars s.data ++ ['"']) from rfl]
    simp only [List.length_cons]
    omega
  | .arr [] => by
    simp only [jsonFuel]
    rw [show encodeVal (.arr []) = ['[', ']'] from rfl]
    simp only [List.length_cons, List.length_nil]
    omega
  | .arr (v :: tl) => by
    have ih := elemsFuel_le v tl
    simp only [jsonFuel]
    rw [show encodeVal (.arr (v :: tl))
        = '[' :: ((encodeVal v ++ encodeElemsRest tl) ++ [']']) from rfl]
    simp only [List.length_cons, List.length_append, List.length_nil] at ih ⊢
    omega
  | .obj [] => by
    simp only [jsonFuel]
    rw [show encodeVal (.obj []) = ['{', '}'] from rfl]
    simp only [List.length_cons, List.length_nil]
    omega
  | .obj ((k, v) :: tl) => by
    have ih := membersFuel_le k v tl
    simp only [jsonFuel]
    rw [show encodeVal (.obj ((k, v) :: tl))
        = '{' :: ((encodeMember (k, v) ++ encodeMembersRest tl) ++ ['}'])
        from rfl]
    simp only [List.length_cons, List.length_append, List.length_nil] at ih ⊢
    omega
termination_by v => sizeOf v

/-- Element-list fuel is bounded by the encoded length plus one. -/
theorem elemsFuel_le : ∀ (v : JsonValue) (tl : List JsonValue),
    elemsFuel v tl ≤ (encodeVal v ++ encodeElemsRest tl).length + 1
  | v, [] => by
    have ih := jsonFuel_le v
    simp only [elemsFuel]
    rw [show encodeElemsRest ([] : List JsonValue) = [] from rfl]
    simp only [List.length_append, List.length_nil]
    omega
  | v, w :: tl2 => by
    have ih1 := jsonFuel_le v
    have ih2 := elemsFuel_le w tl2
    simp only [elemsFuel]
    rw [show encodeElemsRest (w :: tl2)
        = ',' :: ' ' :: (encodeVal w ++ encodeElemsRest tl2) from rfl]
    simp only [List.length_append, List.length_cons] at ih2 ⊢
    omega
termination_by v tl => 1 + sizeOf v + sizeOf tl

/-- Member-list fuel is bounded by the encoded length plus one. -/
theorem membersFuel_le : ∀ (k : String) (v : JsonValue)
    (tl : List (String × JsonValue)),
    membersFuel (k, v) tl ≤ (encodeMember (k, v) ++ encodeMembersRest tl).length + 1
  | k, v, [] => by
    have ih := jsonFuel_le v
    simp only [membersFuel]
    rw [show encodeMember (k, v)
        = '"' :: (escChars k.data ++ ('"' :: ':' :: ' ' :: encodeVal v))
        from rfl,
      show encodeMembersRest ([] : List (String × JsonValue)) = [] from rfl]
    simp only [List.length_append, List.length_cons, List.length_nil]
    omega
  | k, v, (k2, v2) :: tl2 => by
    have ih1 := jsonFuel_le v
    have ih2 := membersFuel_le k2 v2 tl2
    simp only [membersFuel]
    rw [show encodeMember (k, v)
        = '"' :: (escChars k.data ++ ('"' :: ':' :: ' ' :: encodeVal v))
        from rfl,
      show encodeMembersRest ((k2, v2) :: tl2)
        = ',' :: ' ' :: (encodeMember (k2, v2) ++ encodeMembersRest tl2)
        from rfl]
    simp only [List.length_append, List.length_cons] at ih2 ⊢
    omega
termination_by _ v tl => 1 + sizeOf v + sizeOf tl

end

/-- C6: `decode_json` applied to `encode_json payload` returns exactly the
original payload value (`json.loads(json.dumps(p)) == p`): the broker's
encode/decode pair is a faithful round trip for every representable payload. -/
theorem decode_encode_roundtrip (payload : JsonValue) :
    decode_json (encode_json payload) = some payload := by
  have hskip : skipWs (encodeVal payload) = encodeVal payload := by
    have h := skipWs_encodeVal payload []
    simpa using h
  have hfuel : jsonFuel payload ≤ (encodeVal payload).length + 1 :=
    le_trans (jsonFuel_le payload) (Nat.le_succ _)
  have h := parseVal_encodeVal payload ((encodeVal payload).length + 1) []
    hfuel trivial
  rw [List.append_nil] at h
  simp only [decode_json, encode_json,
    show (String.mk (encodeVal payload)).data = encodeVal payload from rfl,
    hskip, h]
  simp [skipWs]

end NatsClient
